import Mathlib

/-!
Verification of the request/mutation orchestration layer of the Vue +
TanStack-query composables repository.  The composables under
`src/composables` are thin typed wrappers; the claims concern both the
wrapper code itself (option defaults, cache-key construction, the HTTP
producers/executors, the onSuccess handler ordering) and the orchestration
semantics the spec assigns to the wrapped query engine (cache invalidation,
request dedup, retry, reset).  Wrapper code is embedded directly from the
source; engine behaviour that is not in the repository is modelled from the
spec and marked as such.
-/

set_option maxHeartbeats 1000000

/-- Cache keys are ordered sequences of primitive values; the source uses
`string[]` query keys throughout (`queryKey: string[]` in useRequest.ts and
`invalidateQueries?: string[][]` in useRequestMutation.ts). -/
abbrev CacheKey := List String

/-- Modelled from the spec: the Cache Store entry of the wrapped query engine
(the engine itself is an external dependency, not under src/):
`{ key, value: T | absent, fetchedAt: timestamp | absent, isFetching: bool }`. -/
structure CacheEntry (T : Type) where
  key : CacheKey
  value : Option T
  fetchedAt : Option Nat
  isFetching : Bool
deriving Repr, DecidableEq

/-- Modelled from the spec: the Cache Store is a keyed collection of entries. -/
abbrev CacheStore (T : Type) := List (CacheEntry T)

/-- Modelled from the spec: a key pattern matches a key on exact match, or when
the pattern is a strict prefix of a longer key. -/
def keyMatches : CacheKey → CacheKey → Bool
  | [], _ => true
  | _ :: _, [] => false
  | p :: ps, k :: ks => p == k && keyMatches ps ks

theorem keyMatches_iff_append (p k : CacheKey) :
    keyMatches p k = true ↔ ∃ s, k = p ++ s := by
  induction p generalizing k with
  | nil => simp [keyMatches]
  | cons a ps ih =>
    cases k with
    | nil =>
      simp [keyMatches]
    | cons b ks =>
      simp only [keyMatches, Bool.and_eq_true, beq_iff_eq, ih, List.cons_append,
        List.cons.injEq]
      constructor
      · rintro ⟨rfl, s, rfl⟩
        exact ⟨s, rfl, rfl⟩
      · rintro ⟨s, rfl, rfl⟩
        exact ⟨rfl, s, rfl⟩

/-- Modelled from the spec: invalidation of a single entry against one pattern —
a matching entry gets `fetchedAt := absent`, its cached value untouched; a
non-matching entry is unchanged. -/
def invalidateEntry {T : Type} (p : CacheKey) (e : CacheEntry T) : CacheEntry T :=
  if keyMatches p e.key then { e with fetchedAt := none } else e

/-- Modelled from the spec: `invalidate(keys)` of the Cache Store — every
pattern in the list is applied to every entry of the store. -/
def invalidate {T : Type} (patterns : List CacheKey) (c : CacheStore T) : CacheStore T :=
  patterns.foldl (fun acc p => acc.map (invalidateEntry p)) c

theorem invalidate_single {T : Type} (p : CacheKey) (c : CacheStore T) :
    invalidate [p] c = c.map (invalidateEntry p) := rfl

/-- C3: invalidating a key pattern marks stale (clears `fetchedAt`, keeps the
value) every entry whose key equals the pattern or extends it, and leaves every
non-matching entry unchanged. -/
theorem invalidate_marks_matching_stale {T : Type} (p : CacheKey) (store : CacheStore T)
    (i : Nat) (e : CacheEntry T) (he : store[i]? = some e) :
    (keyMatches p e.key = true →
        (invalidate [p] store)[i]? = some { e with fetchedAt := none }) ∧
    (keyMatches p e.key = false → (invalidate [p] store)[i]? = some e) ∧
    (keyMatches p e.key = true ↔ ∃ s, e.key = p ++ s) := by
  refine ⟨?_, ?_, keyMatches_iff_append p e.key⟩ <;> intro hm <;>
    simp [invalidate_single, List.getElem?_map, he, invalidateEntry, hm]

/-- C3 witness: invalidating pattern `["users"]` on a store holding keys
`["users"]`, `["users", "5"]` and `["posts"]` marks the first two stale with
their values intact and leaves `["posts"]` untouched. -/
theorem invalidate_marks_matching_stale_witness :
    (invalidate [["users"]]
        ([⟨["users"], some 1, some 10, false⟩,
          ⟨["users", "5"], some 2, some 20, false⟩,
          ⟨["posts"], some 3, some 30, false⟩] : CacheStore Nat))[2]? =
      some ⟨["posts"], some 3, some 30, false⟩ ∧
    (invalidate [["users"]]
        ([⟨["users"], some 1, some 10, false⟩,
          ⟨["users", "5"], some 2, some 20, false⟩,
          ⟨["posts"], some 3, some 30, false⟩] : CacheStore Nat))[1]? =
      some ⟨["users", "5"], some 2, none, false⟩ := by
  constructor
  · exact (invalidate_marks_matching_stale ["users"] _ 2
      ⟨["posts"], some 3, some 30, false⟩ (by decide)).2.1 (by decide)
  · exact (invalidate_marks_matching_stale ["users"] _ 1
      ⟨["users", "5"], some 2, some 20, false⟩ (by decide)).1 (by decide)

/-- Side effects the wrapped onSuccess handler can perform. -/
inductive MutEvent where
  | invalidateCall : CacheKey → MutEvent
  | userCallback : MutEvent
deriving DecidableEq, Repr

/-- Side-effect trace of the onSuccess handler installed by useRequestMutation
(src/composables/useRequestMutation.ts, the `useMutation({ onSuccess := ... })`
argument): it first iterates `invalidateQueries`, calling
`queryClient.invalidateQueries({ queryKey })` for each listed key, and only
afterwards, when the caller supplied an `onSuccess`, invokes it with
`(data, variables)`. -/
def mutationSuccessTrace (invalidateQueries : List CacheKey) (hasOnSuccess : Bool) :
    List MutEvent :=
  (invalidateQueries.map MutEvent.invalidateCall) ++
    (if hasOnSuccess then [MutEvent.userCallback] else [])

/-- The ordering asserted by the spec: every user-callback event precedes every
invalidation event of the trace. -/
def callbackFirst (tr : List MutEvent) : Prop :=
  ∀ i j k, tr.get? i = some MutEvent.userCallback →
    tr.get? j = some (MutEvent.invalidateCall k) → i < j

/-- C1 counterexample: with one invalidation key and an onSuccess callback
supplied, the handler performs the invalidation (index 0) before the user
callback (index 1), so the callback-before-invalidation ordering fails. -/
theorem callback_not_before_invalidation :
    ¬ callbackFirst (mutationSuccessTrace [["users"]] true) := by
  intro h
  exact absurd (h 1 0 ["users"] rfl rfl) (by decide)

/-- C1 amended: on every successful mutation the wrapped handler performs all
cache invalidations first, and the user onSuccess callback runs only after
every invalidation. -/
theorem invalidations_before_callback (qs : List CacheKey) (i j : Nat) (k : CacheKey)
    (hi : (mutationSuccessTrace qs true).get? i = some (MutEvent.invalidateCall k))
    (hj : (mutationSuccessTrace qs true).get? j = some MutEvent.userCallback) :
    i < j := by
  have hilt : i < qs.length := by
    by_contra hge
    push_neg at hge
    rw [mutationSuccessTrace, if_pos rfl,
      List.get?_append_right (by simpa using hge)] at hi
    rcases hd : i - (qs.map MutEvent.invalidateCall).length with _ | n
    · rw [hd] at hi
      simp at hi
    · rw [hd] at hi
      simp at hi
  have hjge : qs.length ≤ j := by
    by_contra hlt
    push_neg at hlt
    rw [mutationSuccessTrace, if_pos rfl,
      List.get?_append (by simpa using hlt), List.get?_map] at hj
    rcases hq : qs.get? j with _ | key
    · rw [hq] at hj
      simp at hj
    · rw [hq] at hj
      simp at hj
  omega

/-- C1 amended witness: with `invalidateQueries = [["users"]]` and a callback
supplied, the invalidation at index 0 precedes the callback at index 1. -/
theorem invalidations_before_callback_witness :
    (mutationSuccessTrace [["users"]] true).get? 0 =
        some (MutEvent.invalidateCall ["users"]) ∧ (0 : Nat) < 1 :=
  ⟨rfl, invalidations_before_callback [["users"]] 0 1 ["users"] rfl rfl⟩

/-- Actions observable by the request-dedup discipline: a Query Runner
activating for a key (mount), or the single in-flight fetch for a key
completing with a value. -/
inductive DedupAction (T : Type) where
  | mount : Nat → CacheKey → DedupAction T
  | complete : CacheKey → T → DedupAction T

/-- Modelled from the spec: the shared dedup state of the wrapped query engine
(not under src/) — the keys whose fetch is currently in flight, a log with one
element per producer invocation ever started, the observers currently attached
to an in-flight fetch, and the results delivered to observers. -/
structure DedupSys (T : Type) where
  inFlight : List CacheKey
  producerStarts : List CacheKey
  observers : List (Nat × CacheKey)
  resolved : List (Nat × CacheKey × T)

def dedupInit (T : Type) : DedupSys T := ⟨[], [], [], []⟩

/-- Modelled from the spec: step 3 of the Query Runner activation algorithm and
the at-most-one-concurrent-fetch-per-key discipline of the wrapped query engine.
A runner mounting for key `k` while a fetch for `k` is in flight attaches as a
secondary observer without starting a producer; otherwise it marks `k` fetching
and starts one producer invocation.  A completion for `k` delivers the single
result to every attached observer of `k` and clears the in-flight mark. -/
def dedupStep {T : Type} (s : DedupSys T) : DedupAction T → DedupSys T
  | .mount rid k =>
      if k ∈ s.inFlight then
        { s with observers := (rid, k) :: s.observers }
      else
        { s with inFlight := k :: s.inFlight,
                 producerStarts := k :: s.producerStarts,
                 observers := (rid, k) :: s.observers }
  | .complete k v =>
      if k ∈ s.inFlight then
        { s with inFlight := s.inFlight.erase k,
                 observers := s.observers.filter (fun o => decide (o.2 ≠ k)),
                 resolved := (s.observers.filterMap
                     (fun o => if o.2 = k then some (o.1, k, v) else none)) ++
                   s.resolved }
      else s

def dedupRun {T : Type} (acts : List (DedupAction T)) : DedupSys T :=
  acts.foldl dedupStep (dedupInit T)

theorem dedupStep_nodup {T : Type} (s : DedupSys T) (a : DedupAction T)
    (h : s.inFlight.Nodup) : (dedupStep s a).inFlight.Nodup := by
  cases a with
  | mount rid k =>
    by_cases hk : k ∈ s.inFlight
    · simpa [dedupStep, hk] using h
    · simp only [dedupStep, if_neg hk]
      exact List.nodup_cons.mpr ⟨hk, h⟩
  | complete k v =>
    by_cases hk : k ∈ s.inFlight
    · simpa [dedupStep, hk] using h.erase k
    · simpa [dedupStep, hk] using h

theorem dedupRun_nodup {T : Type} (acts : List (DedupAction T)) :
    (dedupRun acts).inFlight.Nodup := by
  suffices h : ∀ s : DedupSys T, s.inFlight.Nodup →
      (acts.foldl dedupStep s).inFlight.Nodup by
    exact h (dedupInit T) (by simp [dedupInit])
  induction acts with
  | nil => intro s hs; exact hs
  | cons a as ih =>
    intro s hs
    exact ih (dedupStep s a) (dedupStep_nodup s a hs)

/-- C2: after any sequence of runner activations and fetch completions, at most
one fetch per key is in flight; a runner that mounts while its key is already
in flight joins the existing fetch (it starts no producer invocation and leaves
the in-flight set unchanged, only attaching as an observer); and every observer
resolved by one completion receives that completion's single result. -/
theorem count_le_one_of_nodup_keys (l : List CacheKey) (k : CacheKey)
    (h : l.Nodup) : l.count k ≤ 1 := by
  induction l with
  | nil => simp
  | cons a l ih =>
    rw [List.nodup_cons] at h
    rcases h with ⟨ha, hl⟩
    by_cases hak : a = k
    · subst hak
      have hz : l.count a = 0 := List.count_eq_zero.mpr ha
      simp [List.count_cons, hz]
    · simpa [List.count_cons, hak] using ih hl

theorem dedup_at_most_one_in_flight {T : Type} (acts : List (DedupAction T))
    (k : CacheKey) :
    (dedupRun acts).inFlight.count k ≤ 1 ∧
    (∀ (s : DedupSys T) (rid : Nat), k ∈ s.inFlight →
        (dedupStep s (.mount rid k)).producerStarts = s.producerStarts ∧
        (dedupStep s (.mount rid k)).inFlight = s.inFlight ∧
        (dedupStep s (.mount rid k)).observers = (rid, k) :: s.observers) ∧
    (∀ (s : DedupSys T) (v : T) (rid : Nat) (k' : CacheKey) (v' : T),
        (rid, k', v') ∈ (dedupStep s (.complete k v)).resolved →
        (rid, k', v') ∈ s.resolved ∨ (k' = k ∧ v' = v)) := by
  refine ⟨count_le_one_of_nodup_keys _ k (dedupRun_nodup acts), ?_, ?_⟩
  · intro s rid hk
    simp [dedupStep, hk]
  · intro s v rid k' v' hmem
    by_cases hk : k ∈ s.inFlight
    · simp only [dedupStep, if_pos hk, List.mem_append] at hmem
      rcases hmem with hnew | hold
      · rcases List.mem_filterMap.mp hnew with ⟨o, _, ho⟩
        by_cases hok : o.2 = k
        · rw [if_pos hok] at ho
          injection ho with ho2
          right
          exact ⟨(congrArg (fun t => t.2.1) ho2).symm,
            (congrArg (fun t => t.2.2) ho2).symm⟩
        · rw [if_neg hok] at ho
          exact absurd ho (by simp)
      · exact Or.inl hold
    · simp only [dedupStep, if_neg hk] at hmem
      exact Or.inl hmem

/-- Phases of a Query Runner. -/
inductive QueryPhase where
  | idle | pending | success | error
deriving DecidableEq, Repr

/-- Outcome of one query activation: the settled phase, the observable data and
error, the number of producer invocations made, and whether the cache was
consulted at all. -/
structure ActivationResult (T : Type) where
  phase : QueryPhase
  data : Option T
  errorMsg : Option String
  producerCalls : Nat
  cacheAccessed : Bool
deriving Repr, DecidableEq

/-- Modelled from the spec: the retry loop of the wrapped query engine (not
under src/) — run the producer; on failure retry while retries remain; return
the final outcome together with the total number of producer invocations.  The
producer is indexed by the attempt number so that call counts are observable. -/
def runWithRetry {T : Type} (producer : Nat → Except String T) :
    Nat → Nat → Except String T × Nat
  | 0, attempt =>
      match producer attempt with
      | .ok v => (.ok v, attempt + 1)
      | .error e => (.error e, attempt + 1)
  | n + 1, attempt =>
      match producer attempt with
      | .ok v => (.ok v, attempt + 1)
      | .error _ => runWithRetry producer n (attempt + 1)

theorem runWithRetry_calls_le {T : Type} (producer : Nat → Except String T)
    (n attempt : Nat) :
    (runWithRetry producer n attempt).2 ≤ attempt + n + 1 := by
  induction n generalizing attempt with
  | zero =>
    rcases hp : producer attempt with e | v <;> simp [runWithRetry, hp]
  | succ m ih =>
    rcases hp : producer attempt with e | v
    · have := ih (attempt + 1)
      simp only [runWithRetry, hp]
      omega
    · simp only [runWithRetry, hp]
      omega

theorem runWithRetry_all_fail {T : Type} (producer : Nat → Except String T)
    (errs : Nat → String) (hfail : ∀ m, producer m = .error (errs m))
    (n attempt : Nat) :
    runWithRetry producer n attempt = (.error (errs (attempt + n)), attempt + n + 1) := by
  induction n generalizing attempt with
  | zero => simp [runWithRetry, hfail attempt]
  | succ m ih =>
    have h := ih (attempt + 1)
    rw [show attempt + 1 + m = attempt + (m + 1) from by omega] at h
    simp only [runWithRetry, hfail attempt, h]

/-- Modelled from the spec: step 4 of the Query Runner activation algorithm —
run the producer under the retry policy; success stores the value and settles
in `success`; exhausted retries settle in `error`, retaining the last known
cached value if one exists. -/
def queryFetch {T : Type} (lastKnown : Option T) (producer : Nat → Except String T)
    (retry : Nat) : ActivationResult T :=
  match runWithRetry producer retry 0 with
  | (.ok v, n) =>
      { phase := .success, data := some v, errorMsg := none,
        producerCalls := n, cacheAccessed := true }
  | (.error e, n) =>
      { phase := .error, data := lastKnown, errorMsg := some e,
        producerCalls := n, cacheAccessed := true }

/-- Cache Store lookup by key (spec §4.1 `get`). -/
def lookupEntry {T : Type} (store : CacheStore T) (k : CacheKey) :
    Option (CacheEntry T) :=
  store.find? (fun e => e.key == k)

/-- Modelled from the spec: freshness of an entry — fresh when it has a
`fetchedAt` timestamp and `now - fetchedAt < staleTime`. -/
def entryFresh {T : Type} (e : CacheEntry T) (now staleTime : Nat) : Bool :=
  match e.fetchedAt with
  | some t => decide (now - t < staleTime)
  | none => false

/-- Modelled from the spec: steps 1, 2 and 4 of the Query Runner activation
algorithm of the wrapped query engine (not under src/).  A disabled runner
stays idle with no cache access and no producer call; a fresh entry is served
from cache without fetching; otherwise the producer runs under the retry
policy via `queryFetch`.  (Step 3, joining an in-flight fetch, is modelled
separately by `dedupStep`.) -/
def activateQuery {T : Type} (enabled : Bool) (store : CacheStore T) (k : CacheKey)
    (now staleTime : Nat) (producer : Nat → Except String T) (retry : Nat) :
    ActivationResult T :=
  if enabled then
    match lookupEntry store k with
    | some e =>
        if entryFresh e now staleTime then
          { phase := .success, data := e.value, errorMsg := none,
            producerCalls := 0, cacheAccessed := true }
        else queryFetch e.value producer retry
    | none => queryFetch none producer retry
  else
    { phase := .idle, data := none, errorMsg := none,
      producerCalls := 0, cacheAccessed := false }

/-- C5: a Query Runner with `enabled = false` never invokes its producer, never
leaves the idle phase, and never touches the cache, whatever the cache, key,
timing options, producer or retry policy are. -/
theorem disabled_runner_stays_idle {T : Type} (store : CacheStore T) (k : CacheKey)
    (now staleTime : Nat) (producer : Nat → Except String T) (retry : Nat) :
    activateQuery false store k now staleTime producer retry =
      { phase := .idle, data := none, errorMsg := none,
        producerCalls := 0, cacheAccessed := false } := rfl

/-- C4: with retry count N the producer is called at most N+1 times on any
activation; when the producer fails on every attempt and no cache entry exists
for the key, the producer is called exactly N+1 times, the runner settles in
`error`, and data stays absent. -/
theorem retry_bounds_producer_calls {T : Type} (store : CacheStore T) (k : CacheKey)
    (now staleTime : Nat) (producer : Nat → Except String T) (retry : Nat)
    (errs : Nat → String)
    (hfail : ∀ m, producer m = .error (errs m))
    (hmiss : lookupEntry store k = none) :
    (activateQuery true store k now staleTime producer retry).producerCalls =
        retry + 1 ∧
    (activateQuery true store k now staleTime producer retry).phase =
        QueryPhase.error ∧
    (activateQuery true store k now staleTime producer retry).data = none ∧
    (∀ p : Nat → Except String T,
        (activateQuery true store k now staleTime p retry).producerCalls ≤
          retry + 1) := by
  have hall := runWithRetry_all_fail producer errs hfail retry 0
  refine ⟨?_, ?_, ?_, ?_⟩
  · simp [activateQuery, hmiss, queryFetch, hall]
  · simp [activateQuery, hmiss, queryFetch, hall]
  · simp [activateQuery, hmiss, queryFetch, hall]
  · intro p
    simp only [activateQuery, if_pos]
    rcases hl : lookupEntry store k with _ | e
    · simp only [queryFetch]
      rcases hr : runWithRetry p retry 0 with ⟨res, n⟩
      have hb := runWithRetry_calls_le p retry 0
      rw [hr] at hb
      cases res <;> simpa using hb
    · by_cases hf : entryFresh e now staleTime
      · simp [hf]
      · simp only [hf, Bool.false_eq_true, if_neg, queryFetch]
        rcases hr : runWithRetry p retry 0 with ⟨res, n⟩
        have hb := runWithRetry_calls_le p retry 0
        rw [hr] at hb
        cases res <;> simpa using hb

/-- C4 witness: the spec scenario — a producer that always rejects with "500"
and retry = 2 gives exactly 3 producer calls, final phase `error`, data absent. -/
theorem retry_bounds_producer_calls_witness :
    (activateQuery true ([] : CacheStore Nat) ["users"] 0 0
        (fun _ => Except.error "500") 2).producerCalls = 3 ∧
    (activateQuery true ([] : CacheStore Nat) ["users"] 0 0
        (fun _ => Except.error "500") 2).phase = QueryPhase.error ∧
    (activateQuery true ([] : CacheStore Nat) ["users"] 0 0
        (fun _ => Except.error "500") 2).data = none := by
  have h := retry_bounds_producer_calls ([] : CacheStore Nat) ["users"] 0 0
    (fun _ => Except.error "500") 2 (fun _ => "500") (fun _ => rfl) rfl
  exact ⟨h.1, h.2.1, h.2.2.1⟩

/-- C7: when a cache entry for the key holds a previously cached value and the
fetch fails on every attempt (retries exhausted), the runner settles in `error`
with its data still the previously cached value. -/
theorem query_error_retains_cached_data {T : Type} (store : CacheStore T)
    (k : CacheKey) (now staleTime : Nat) (producer : Nat → Except String T)
    (retry : Nat) (e : CacheEntry T) (v : T) (errs : Nat → String)
    (hlook : lookupEntry store k = some e)
    (hval : e.value = some v)
    (hstale : entryFresh e now staleTime = false)
    (hfail : ∀ m, producer m = .error (errs m)) :
    (activateQuery true store k now staleTime producer retry).phase =
        QueryPhase.error ∧
    (activateQuery true store k now staleTime producer retry).data = some v := by
  have hall := runWithRetry_all_fail producer errs hfail retry 0
  constructor <;>
    simp [activateQuery, hlook, hstale, queryFetch, hall, hval]

/-- C7 witness: a stale entry for `["users"]` caching 7, with an
always-failing producer and retry = 1, settles in `error` with data still 7. -/
theorem query_error_retains_cached_data_witness :
    (activateQuery true
        ([⟨["users"], some 7, some 0, false⟩] : CacheStore Nat) ["users"] 10 5
        (fun _ => Except.error "boom") 1).phase = QueryPhase.error ∧
    (activateQuery true
        ([⟨["users"], some 7, some 0, false⟩] : CacheStore Nat) ["users"] 10 5
        (fun _ => Except.error "boom") 1).data = some 7 :=
  query_error_retains_cached_data _ ["users"] 10 5 _ 1
    ⟨["users"], some 7, some 0, false⟩ 7 (fun _ => "boom")
    (by decide) rfl (by decide) (fun _ => rfl)

/-- Phases of a Mutation Runner. -/
inductive MutPhase where
  | idle | pending | success | error
deriving DecidableEq, Repr

/-- Modelled from the spec: the observable state of a Mutation Runner of the
wrapped query engine (not under src/), with a generation counter implementing
the discard-if-superseded policy for results that arrive after `reset()`. -/
structure MutationRunner (T : Type) where
  phase : MutPhase
  data : Option T
  errorMsg : Option String
  generation : Nat
deriving Repr, DecidableEq

/-- Modelled from the spec: starting a `mutate`/`mutateAsync` call moves the
runner to `pending` and tags the in-flight executor call with the current
generation. -/
def startMutation {T : Type} (m : MutationRunner T) : MutationRunner T × Nat :=
  ({ m with phase := .pending }, m.generation)

/-- Modelled from the spec: `reset()` clears data/error/state back to idle and
advances the generation, superseding every in-flight executor call; it does not
cancel the call itself. -/
def resetRunner {T : Type} (m : MutationRunner T) : MutationRunner T :=
  { phase := .idle, data := none, errorMsg := none,
    generation := m.generation + 1 }

/-- Modelled from the spec: an executor result is applied to the runner state
only when its generation tag is still current; a superseded (late) result is
discarded. -/
def settleMutation {T : Type} (m : MutationRunner T) (tag : Nat)
    (result : Except String T) : MutationRunner T :=
  if tag = m.generation then
    match result with
    | .ok v => { m with phase := .success, data := some v, errorMsg := none }
    | .error e => { m with phase := .error, errorMsg := some e }
  else m

/-- C6: `reset()` returns data, error and phase to idle; the executor call
started before the reset keeps its old generation tag, so its result — success
or failure — arriving after the reset is discarded and the runner stays idle. -/
theorem reset_discards_late_result {T : Type} (m : MutationRunner T) (tag : Nat)
    (result : Except String T) (htag : tag ≤ m.generation) :
    (resetRunner m).phase = MutPhase.idle ∧
    (resetRunner m).data = none ∧
    (resetRunner m).errorMsg = none ∧
    (startMutation m).2 = m.generation ∧
    settleMutation (resetRunner m) tag result = resetRunner m ∧
    (settleMutation (resetRunner m) tag result).phase = MutPhase.idle := by
  have hne : tag ≠ m.generation + 1 := by omega
  refine ⟨rfl, rfl, rfl, rfl, ?_, ?_⟩ <;>
    simp [settleMutation, resetRunner, hne]

/-- C6 witness: a pending runner at generation 0 is reset; the old call's ok
result (tag 0) arriving afterwards leaves the runner idle and unchanged. -/
theorem reset_discards_late_result_witness :
    settleMutation (resetRunner (⟨MutPhase.pending, none, none, 0⟩ :
        MutationRunner Nat)) 0 (Except.ok 5) =
      resetRunner (⟨MutPhase.pending, none, none, 0⟩ : MutationRunner Nat) ∧
    (settleMutation (resetRunner (⟨MutPhase.pending, none, none, 0⟩ :
        MutationRunner Nat)) 0 (Except.ok 5)).phase = MutPhase.idle :=
  ⟨(reset_discards_late_result ⟨MutPhase.pending, none, none, 0⟩ 0
      (Except.ok 5) (Nat.le_refl 0)).2.2.2.2.1,
   (reset_discards_late_result ⟨MutPhase.pending, none, none, 0⟩ 0
      (Except.ok 5) (Nat.le_refl 0)).2.2.2.2.2⟩

/-- HTTP methods used by the convenience entry points. -/
inductive HttpMethod where
  | get | post | put | delete
deriving DecidableEq, Repr

/-- A request as issued by the producers/executors built in src: the URL, the
method, and the serialized body when one is sent. -/
structure HttpRequest where
  url : String
  method : HttpMethod
  body : Option String
deriving DecidableEq, Repr

/-- The transport's answer: an HTTP status and the response body, which
`response.json()` parses; the parsed value is represented by the body text. -/
structure HttpResponse where
  status : Nat
  jsonBody : String
deriving DecidableEq, Repr

/-- `response.ok` of the Fetch API: status in the inclusive range 200..299. -/
def respOk (r : HttpResponse) : Bool :=
  decide (200 ≤ r.status ∧ r.status ≤ 299)

/-- Shared body of every producer/executor built in src (useRequest.ts
useGetRequest and useRequestMutation.ts usePostRequest/usePutRequest/
useDeleteRequest): issue the request over the transport `net`, throw
`HTTP error! status: <status>` when `!response.ok`, otherwise return the
parsed JSON body. -/
def runHttp (net : HttpRequest → HttpResponse) (req : HttpRequest) :
    Except String String :=
  let r := net req
  if respOk r then Except.ok r.jsonBody
  else Except.error ("HTTP error! status: " ++ toString r.status)

/-- The request issued by the GET producer of useGetRequest: `fetch(url)`. -/
def getRequestOf (url : String) : HttpRequest := ⟨url, .get, none⟩

/-- The GET producer built by useGetRequest (src/composables/useRequest.ts). -/
def getProducer (net : HttpRequest → HttpResponse) (url : String) :
    Except String String :=
  runHttp net (getRequestOf url)

/-- The request issued by the POST/PUT/DELETE executors:
`fetch(url, { method, body: JSON.stringify(variables) })`. -/
def mutationRequestOf (m : HttpMethod) (url : String) (body : String) :
    HttpRequest :=
  ⟨url, m, some body⟩

/-- The POST executor built by usePostRequest
(src/composables/useRequestMutation.ts); `stringify` stands for JSON.stringify
applied to the variables. -/
def postExecutor {V : Type} (net : HttpRequest → HttpResponse) (url : String)
    (stringify : V → String) (vars : V) : Except String String :=
  runHttp net (mutationRequestOf .post url (stringify vars))

/-- The PUT executor built by usePutRequest. -/
def putExecutor {V : Type} (net : HttpRequest → HttpResponse) (url : String)
    (stringify : V → String) (vars : V) : Except String String :=
  runHttp net (mutationRequestOf .put url (stringify vars))

/-- The DELETE executor built by useDeleteRequest. -/
def deleteExecutor {V : Type} (net : HttpRequest → HttpResponse) (url : String)
    (stringify : V → String) (vars : V) : Except String String :=
  runHttp net (mutationRequestOf .delete url (stringify vars))

/-- C8: the GET producer fetches the URL with no body and the POST/PUT/DELETE
executors fetch the URL with their method and the JSON-serialized variables;
each throws exactly when the response status is outside 200..299 and otherwise
returns the parsed JSON body. -/
theorem http_entry_points_spec {V : Type} (net : HttpRequest → HttpResponse)
    (url : String) (stringify : V → String) (vars : V) :
    (getRequestOf url = ⟨url, HttpMethod.get, none⟩ ∧
      getProducer net url = runHttp net ⟨url, HttpMethod.get, none⟩) ∧
    (postExecutor net url stringify vars =
        runHttp net ⟨url, HttpMethod.post, some (stringify vars)⟩ ∧
      putExecutor net url stringify vars =
        runHttp net ⟨url, HttpMethod.put, some (stringify vars)⟩ ∧
      deleteExecutor net url stringify vars =
        runHttp net ⟨url, HttpMethod.delete, some (stringify vars)⟩) ∧
    (∀ req : HttpRequest,
      (respOk (net req) = true ↔
        200 ≤ (net req).status ∧ (net req).status ≤ 299) ∧
      (respOk (net req) = true → runHttp net req = Except.ok (net req).jsonBody) ∧
      (respOk (net req) = false →
        runHttp net req =
          Except.error ("HTTP error! status: " ++ toString (net req).status))) := by
  refine ⟨⟨rfl, rfl⟩, ⟨rfl, rfl, rfl⟩, ?_⟩
  intro req
  refine ⟨by simp [respOk], ?_, ?_⟩ <;> intro hok <;> simp [runHttp, hok]

/-- The retry option of useRequest: `retry?: number | boolean`. -/
abbrev RetryOption := Sum Nat Bool

/-- The optional part of UseRequestOptions as supplied by the caller
(src/composables/useRequest.ts): each field may be omitted. -/
structure UseRequestOptionsGiven where
  enabled : Option Bool
  staleTime : Option Nat
  cacheTime : Option Nat
  refetchOnWindowFocus : Option Bool
  retry : Option RetryOption
deriving Repr, DecidableEq

/-- The options after the destructuring defaults of useRequest have applied. -/
structure UseRequestOptionsResolved where
  enabled : Bool
  staleTime : Nat
  cacheTime : Nat
  refetchOnWindowFocus : Bool
  retry : RetryOption
deriving Repr, DecidableEq

/-- Option resolution performed by the destructuring defaults in useRequest
(src/composables/useRequest.ts): `enabled = true`, `staleTime = 5 * 60 * 1000`,
`cacheTime = 10 * 60 * 1000`, `refetchOnWindowFocus = false`, `retry = 3`;
a supplied value is passed through unchanged. -/
def resolveOptions (o : UseRequestOptionsGiven) : UseRequestOptionsResolved :=
  { enabled := o.enabled.getD true,
    staleTime := o.staleTime.getD (5 * 60 * 1000),
    cacheTime := o.cacheTime.getD (10 * 60 * 1000),
    refetchOnWindowFocus := o.refetchOnWindowFocus.getD false,
    retry := o.retry.getD (Sum.inl 3) }

/-- C9: when every option is omitted the defaults are exactly
staleTime 300000, cacheTime 600000, refetchOnWindowFocus false, retry 3,
enabled true; and each supplied option overrides its default. -/
theorem option_defaults_exact :
    resolveOptions ⟨none, none, none, none, none⟩ =
      ⟨true, 300000, 600000, false, Sum.inl 3⟩ ∧
    (∀ (o : UseRequestOptionsGiven) (b : Bool),
        (resolveOptions { o with enabled := some b }).enabled = b) ∧
    (∀ (o : UseRequestOptionsGiven) (n : Nat),
        (resolveOptions { o with staleTime := some n }).staleTime = n) ∧
    (∀ (o : UseRequestOptionsGiven) (n : Nat),
        (resolveOptions { o with cacheTime := some n }).cacheTime = n) ∧
    (∀ (o : UseRequestOptionsGiven) (b : Bool),
        (resolveOptions { o with refetchOnWindowFocus := some b }).refetchOnWindowFocus = b) ∧
    (∀ (o : UseRequestOptionsGiven) (r : RetryOption),
        (resolveOptions { o with retry := some r }).retry = r) := by
  refine ⟨rfl, ?_, ?_, ?_, ?_, ?_⟩ <;> intro o x <;> rfl

/-- The cache key under which useGetRequest registers its query
(src/composables/useRequest.ts: `queryKey: ['get', url]`). -/
def getQueryKey (url : String) : CacheKey := ["get", url]

/-- C10: useGetRequest registers under exactly the key `["get", url]`; two GET
composables with the same URL share one cache entry (the key determines and is
determined by the URL); and a pattern invalidates that entry exactly when it is
`["get", url]` itself or one of its prefixes `[]`, `["get"]`. -/
theorem get_query_key_spec (u v : String) (p : CacheKey) :
    getQueryKey u = ["get", u] ∧
    (getQueryKey u = getQueryKey v ↔ u = v) ∧
    (keyMatches p (getQueryKey u) = true ↔
      p = [] ∨ p = ["get"] ∨ p = ["get", u]) ∧
    (∀ (e : CacheEntry Nat), e.key = getQueryKey u → e.fetchedAt ≠ none →
      ((invalidateEntry p e).fetchedAt = none ↔
        p = [] ∨ p = ["get"] ∨ p = ["get", u])) := by
  have hmatch : keyMatches p (getQueryKey u) = true ↔
      p = [] ∨ p = ["get"] ∨ p = ["get", u] := by
    rcases p with _ | ⟨a, _ | ⟨b, _ | ⟨c, rest⟩⟩⟩ <;>
      simp [getQueryKey, keyMatches, and_comm]
  refine ⟨rfl, by simp [getQueryKey], hmatch, ?_⟩
  intro e hkey hfetched
  rw [invalidateEntry, hkey]
  by_cases hm : keyMatches p (getQueryKey u) = true
  · simp only [hm, if_pos]
    simp [hmatch.mp hm]
  · rw [if_neg hm]
    simp only [hmatch] at hm
    simpa [hm] using hfetched

/-- C10 witness: the PostForm mutation lists
`["get", "https://jsonplaceholder.typicode.com/posts"]` in invalidateQueries,
which matches the key useGetRequest builds for that URL, while `["posts"]`
would not. -/
theorem get_query_key_spec_witness :
    getQueryKey "https://jsonplaceholder.typicode.com/posts" =
      ["get", "https://jsonplaceholder.typicode.com/posts"] ∧
    ((invalidateEntry ["get", "https://jsonplaceholder.typicode.com/posts"]
        (⟨getQueryKey "https://jsonplaceholder.typicode.com/posts",
          some 1, some 10, false⟩ : CacheEntry Nat)).fetchedAt = none ↔
      ["get", "https://jsonplaceholder.typicode.com/posts"] = ([] : CacheKey) ∨
      ["get", "https://jsonplaceholder.typicode.com/posts"] = (["get"] : CacheKey) ∨
      ["get", "https://jsonplaceholder.typicode.com/posts"] =
        (["get", "https://jsonplaceholder.typicode.com/posts"] : CacheKey)) :=
  ⟨(get_query_key_spec "https://jsonplaceholder.typicode.com/posts" "" []).1,
   (get_query_key_spec "https://jsonplaceholder.typicode.com/posts" ""
      ["get", "https://jsonplaceholder.typicode.com/posts"]).2.2.2
      ⟨getQueryKey "https://jsonplaceholder.typicode.com/posts",
        some 1, some 10, false⟩ rfl (by decide)⟩
